import Mathlib

/-!
Shallow embedding of the incident-commander Lambda (src/app/handler.py and
src/app/agents/deploy_agent.py) for verification of its specification.

Python strings are modelled as `List Char` (`Str`), Python dicts as
association lists, and external collaborators (the agent runtime's event
stream, the session state store, the SMTP dispatcher, and the deployment
fetch/correlation tools that live outside this repository's core files) as
explicit parameters; fallible external calls are `Except String`-valued,
where `Except.error` models a raised Python exception.
-/

set_option autoImplicit false

namespace AicCommander

/-- Python `str` modelled as a list of characters. -/
abbrev Str := List Char

/-- The fixed truncation suffix marker `"..."` from `handler._truncate`. -/
def ellipsis : Str := ['.', '.', '.']

/-- Embedding of `handler._truncate`: return `text` unchanged when its length
is at most `max_len`, else the first `max_len` characters followed by `"..."`.
(The Python default for `max_len` is 200; call sites here always pass the
bound explicitly.) -/
def _truncate (text : Str) (max_len : Nat) : Str :=
  if text.length ≤ max_len then text
  else text.take max_len ++ ellipsis

/-! ## deploy_agent.py: the sub-agent analysis operation

`analyze_deployments(service, time_window, anomaly_start=None)` calls two
tools that live in `app/tools/` (outside the two core files):
`get_github_deployments` and `correlate_deploy_to_incident`.  Per the spec's
external-interface section these tools "return domain evidence or raise", so
they are modelled as `Except String`-valued parameters.  `time_window` is a
Python dict, so each of its keys may be absent. -/

/-- The `time_window` dict `{start, end, incident_id}`; every field optional
because the source accesses it as a plain dict. -/
structure TimeWindow where
  start : Option String
  end_ : Option String
  incident_id : Option String
deriving DecidableEq

/-- Python dict indexing `time_window["end"]`: raises `KeyError` when the key
is absent. -/
def timeWindowEnd (tw : TimeWindow) : Except String String :=
  match tw.end_ with
  | some e => Except.ok e
  | none => Except.error "KeyError: end"

/-- Python `anomaly_start or time_window["end"]`: the left operand wins when
it is truthy (present and non-empty), otherwise the dict is indexed. -/
def refTimeOf (anomaly_start : Option String) (tw : TimeWindow) :
    Except String String :=
  match anomaly_start with
  | some a => if a = "" then timeWindowEnd tw else Except.ok a
  | none => timeWindowEnd tw

/-- The value returned by `analyze_deployments` when it does not raise:
either the caught-error mapping `{"error": message}` or the findings summary
dict `{deployments_found, correlation_results, service, incident_id}`.
`D` is the deployment record type, `C` the correlation-results type (both
produced by external tools and not inspected by this function). -/
inductive AnalyzeResult (D C : Type) where
  | errorMap (message : String)
  | findings (deployments_found : Nat) (correlation_results : C)
      (service : String) (incident_id : String)
deriving DecidableEq

/-- Embedding of `deploy_agent.analyze_deployments`.  Only the
`get_github_deployments` call is inside the `try/except`; a failure there is
caught and returned as the `{"error": str(e)}` mapping.  The reference-time
lookup `anomaly_start or time_window["end"]` and the
`correlate_deploy_to_incident` call happen after the `except` block, so a
failure in either one propagates (models an uncaught Python exception). -/
def analyze_deployments {D C : Type}
    (get_github_deployments : Except String (List D))
    (correlate_deploy_to_incident : List D → String → Except String C)
    (service : String) (time_window : TimeWindow)
    (anomaly_start : Option String) :
    Except String (AnalyzeResult D C) :=
  match get_github_deployments with
  | Except.error e => Except.ok (AnalyzeResult.errorMap e)
  | Except.ok deployments =>
    match refTimeOf anomaly_start time_window with
    | Except.error e => Except.error e
    | Except.ok ref_time =>
      match correlate_deploy_to_incident deployments ref_time with
      | Except.error e => Except.error e
      | Except.ok correlation_results =>
        Except.ok (AnalyzeResult.findings deployments.length
          correlation_results service
          (time_window.incident_id.getD "INC-UNKNOWN"))

/-! ## handler.py: the event loop of `_run_commander`

One item of the runtime's event stream, as the loop body reads it:
`author` via `getattr`, `actions.transfer_to_agent` / `actions.escalate`,
`get_function_calls()`, `get_function_responses()`, `content.parts` and
`is_final_response()`. -/

/-- One LLM tool call: `fc.name` and `fc.args` (each value already rendered
by `str(v)`; `fc.args or {}` makes an absent dict the empty list). -/
structure FuncCall where
  name : Str
  args : List (Str × Str)
deriving DecidableEq

/-- One tool response: `fr.name` and `fr.response`; `none` models a
falsy/absent payload (the source renders it as `""`), `some s` the
`json.dumps(fr.response)` rendering. -/
structure FuncResp where
  name : Str
  response : Option Str
deriving DecidableEq

/-- One Investigation Event.  `content_parts` is the list of `p.text`
fragments of `ev.content.parts` (empty when `content` is absent or has no
parts; an individual fragment may be the empty string, which the source
filters out). -/
structure Event where
  author : String
  transfer_to_agent : Option String
  escalate : Bool
  function_calls : List FuncCall
  function_responses : List FuncResp
  content_parts : List Str
  is_final_response : Bool
deriving DecidableEq, Inhabited

/-- A structured trace line emitted by `_trace`, identified by its tag and
the data interpolated into the message. -/
inductive TraceLine where
  | start (session_id : String)
  | agentExit (name : String)
  | agentEnter (name : String)
  | toolCall (name : Str) (args : List (Str × Str))
  | toolResult (name : Str) (resp : Str)
  | a2aTransfer (source : String) (target : String)
  | escalate (author : String)
  | finalResponse (author : String) (text : Str)
  | reasoning (author : String) (text : Str)
  | done (events : Nat)
  | stateSet (key : String) (val : Str)
  | stateNotSet (key : String)
  | emailSent
  | emailFailed (err : String)
deriving DecidableEq

/-- The loop-carried variables of `_run_commander`'s `async for` body. -/
structure LoopState where
  final_text : Str
  current_agent : Option String
  step_count : Nat
deriving DecidableEq

/-- Python `" ".join(parts)`. -/
def joinSpace (parts : List Str) : Str := List.intercalate [' '] parts

/-- `[p.text for p in ev.content.parts if p.text]`: the event's non-empty
text fragments. -/
def text_parts (ev : Event) : List Str :=
  ev.content_parts.filter (fun t => !t.isEmpty)

/-- The agent-transition block at the top of the loop body
(`if author != current_agent:`): on a change of author, emit an exit line
for the previous agent (skipped when there is none) followed by an enter
line for the new one, and update `current_agent`. -/
def transitionStep (current_agent : Option String) (author : String) :
    Option String × List TraceLine :=
  if current_agent ≠ some author then
    (some author,
     (match current_agent with
      | some prev => [TraceLine.agentExit prev]
      | none => []) ++ [TraceLine.agentEnter author])
  else (current_agent, [])

/-- The tool-call block: one line per function call, each argument value
independently truncated to 200 characters. -/
def toolCallLines (ev : Event) : List TraceLine :=
  ev.function_calls.map (fun fc =>
    TraceLine.toolCall fc.name
      (fc.args.map (fun kv => (kv.1, _truncate kv.2 200))))

/-- The tool-response block: one line per function response, the payload
rendering truncated to 300 characters (a falsy payload renders as `""`). -/
def toolResultLines (ev : Event) : List TraceLine :=
  ev.function_responses.map (fun fr =>
    TraceLine.toolResult fr.name (_truncate (fr.response.getD []) 300))

/-- The A2A-delegation block (`if transfer_to:`, a Python truthiness test,
so an empty target name emits nothing). -/
def transferLines (ev : Event) : List TraceLine :=
  match ev.transfer_to_agent with
  | some target =>
    if target.isEmpty then [] else [TraceLine.a2aTransfer ev.author target]
  | none => []

/-- The escalation block (`if escalate:`). -/
def escalateLines (ev : Event) : List TraceLine :=
  if ev.escalate then [TraceLine.escalate ev.author] else []

/-- The text block at the bottom of the loop body: when the event carries
non-empty text fragments, join them with spaces; a final response is traced
(truncated to 500) and appended to the final-text buffer, otherwise the text
is traced as reasoning (truncated to 300) only when the event has no
function calls and no function responses.  Returns the emitted lines and
the updated final-text buffer. -/
def textStep (final_text : Str) (ev : Event) : List TraceLine × Str :=
  let tp := text_parts ev
  if tp.isEmpty then ([], final_text)
  else
    let combined := joinSpace tp
    if ev.is_final_response then
      ([TraceLine.finalResponse ev.author (_truncate combined 500)],
       final_text ++ combined)
    else if ev.function_calls.isEmpty && ev.function_responses.isEmpty then
      ([TraceLine.reasoning ev.author (_truncate combined 300)], final_text)
    else ([], final_text)

/-- One iteration of the `async for ev in runner.run_async(...)` body:
updates the loop state and emits this event's trace lines in source order
(transition, tool calls, tool results, transfer, escalation, text). -/
def stepEvent (s : LoopState) (ev : Event) : LoopState × List TraceLine :=
  let trans := transitionStep s.current_agent ev.author
  let text := textStep s.final_text ev
  (⟨text.2, trans.1, s.step_count + 1⟩,
   trans.2 ++ toolCallLines ev ++ toolResultLines ev ++ transferLines ev ++
     escalateLines ev ++ text.1)

/-- The whole `async for` loop: fold `stepEvent` over the stream, keeping
each event's trace lines as one sub-list. -/
def runLoop : LoopState → List Event → LoopState × List (List TraceLine)
  | s, [] => (s, [])
  | s, ev :: rest =>
    let r := stepEvent s ev
    let rr := runLoop r.1 rest
    (rr.1, r.2 :: rr.2)

/-- The loop state before the first event:
`final_text = ""`, `current_agent = None`, `step_count = 0`. -/
def initState : LoopState := ⟨[], none, 0⟩

/-! ## handler.py: state read-back, Run Result, dispatch, entry point -/

/-- A value stored in session state, as the drain loop sees it: its Python
truthiness (`if val:`) and its `str(val)` rendering. -/
structure StateVal where
  truthy : Bool
  strRender : Str
deriving DecidableEq

/-- `sess.state.get(key)` over the session-state dict, modelled as an
association list. -/
def stateGet (st : List (String × StateVal)) (key : String) : Option StateVal :=
  (st.find? (fun p => p.1 == key)).map Prod.snd

/-- The fixed, ordered well-known finding keys of the drain loop. -/
def findingKeys : List String := ["logs_findings", "metrics_findings", "deploy_findings"]

/-- The `for key in [...]` drain loop: for each key in order, if
`sess.state.get(key)` is truthy, put its 500-truncated rendering into the
findings dict and trace it; otherwise trace `"(not set)"`.  Returns the
findings dict (as an ordered association list) and the trace lines. -/
def readFindings : List String → List (String × StateVal) →
    List (String × Str) × List TraceLine
  | [], _ => ([], [])
  | key :: keys, st =>
    match stateGet st key with
    | some val =>
      if val.truthy then
        ((key, _truncate val.strRender 500) :: (readFindings keys st).1,
         TraceLine.stateSet key (_truncate val.strRender 200)
           :: (readFindings keys st).2)
      else ((readFindings keys st).1,
        TraceLine.stateNotSet key :: (readFindings keys st).2)
    | none => ((readFindings keys st).1,
        TraceLine.stateNotSet key :: (readFindings keys st).2)

/-- The Run Result dict assembled after the stream ends.  `elapsed_seconds`
is `round(time.time() - t0, 1)`, an externally measured wall-clock value,
carried through as an opaque parameter. -/
structure RunResult where
  response : Str
  session_id : String
  elapsed_seconds : Int
  event_count : Nat
  sub_agent_findings : List (String × Str)
deriving DecidableEq

/-- Embedding of `_run_commander`.  External collaborators are parameters:
`events` is the stream the runtime yields, `state` the session state read
back after the stream, `session_id` the runtime-assigned id, `elapsed` the
measured wall-clock duration, and `dispatch` the `_send_findings_email`
side effect (`Except.error` models a raised exception, which the source
catches and only traces).  Returns the Run Result and the full trace. -/
def _run_commander (events : List Event) (state : List (String × StateVal))
    (session_id : String) (elapsed : Int)
    (dispatch : RunResult → Except String Unit) :
    RunResult × List TraceLine :=
  let loop := runLoop initState events
  let fr := readFindings findingKeys state
  let result : RunResult :=
    ⟨loop.1.final_text, session_id, elapsed, loop.1.step_count, fr.1⟩
  let emailLines :=
    match dispatch result with
    | Except.ok _ => [TraceLine.emailSent]
    | Except.error e => [TraceLine.emailFailed e]
  (result,
   TraceLine.start session_id :: loop.2.flatten ++
     [TraceLine.done loop.1.step_count] ++ fr.2 ++ emailLines)

/-- A JSON-like value, enough to model the inbound event dict and the
wrapping performed by `lambda_handler`. -/
inductive JVal where
  | s (str : String)
  | dict (fields : List (String × JVal))

/-- The inbound event: a mapping, modelled as an association list. -/
abbrev EventDict := List (String × JVal)

/-- Python `key in event` on the inbound mapping. -/
def hasKey (event : EventDict) (key : String) : Bool :=
  event.any (fun p => p.1 == key)

/-- The normalization at the top of `lambda_handler`: wrap a bare detail
payload as `{"detail": event, "detail-type": "CloudWatch Alarm State
Change"}` when the event has neither a `"detail-type"` nor a `"detail"`
key; otherwise leave the event unchanged. -/
def normalizeEvent (event : EventDict) : EventDict :=
  if !hasKey event "detail-type" && !hasKey event "detail" then
    [("detail", JVal.dict event),
     ("detail-type", JVal.s "CloudWatch Alarm State Change")]
  else event

/-- The body returned by `lambda_handler`: the full Run Result on success,
or the `{"error": str(e)}` mapping on failure. -/
inductive LambdaBody where
  | result (r : RunResult)
  | error (message : String)
deriving DecidableEq

/-- The `{statusCode, body}` mapping returned by `lambda_handler`. -/
structure LambdaResponse where
  statusCode : Nat
  body : LambdaBody
deriving DecidableEq

/-- Embedding of `lambda_handler`: normalize the event, run the commander
(`run` abstracts `asyncio.run(_run_commander(event))`, possibly via the
thread-pool shim; `Except.error` models a raised exception), and wrap the
outcome as `{statusCode: 200, body: result}` or
`{statusCode: 500, body: {"error": str(e)}}`. -/
def lambda_handler (run : EventDict → Except String RunResult)
    (event : EventDict) : LambdaResponse :=
  let normalized := normalizeEvent event
  match run normalized with
  | Except.ok result => ⟨200, LambdaBody.result result⟩
  | Except.error e => ⟨500, LambdaBody.error e⟩

/-! ## Observations on the trace and the loop, used to state properties -/

/-- Python dict lookup on an association list (first binding wins). -/
def dictGet {α : Type} (d : List (String × α)) (key : String) : Option α :=
  (d.find? (fun p => p.1 == key)).map Prod.snd

/-- The combined text of each final-response event that carries text, in
stream order. -/
def finalTexts (events : List Event) : List Str :=
  events.filterMap (fun ev =>
    if !(text_parts ev).isEmpty && ev.is_final_response then
      some (joinSpace (text_parts ev))
    else none)

/-- Is this trace line an agent "enter" notification? -/
def isEnterLine : TraceLine → Bool
  | TraceLine.agentEnter _ => true
  | _ => false

/-- Is this trace line an agent "exit" notification? -/
def isExitLine : TraceLine → Bool
  | TraceLine.agentExit _ => true
  | _ => false

/-- Is this trace line a final-response text line? -/
def isFinalLine : TraceLine → Bool
  | TraceLine.finalResponse _ _ => true
  | _ => false

/-- Is this trace line a reasoning text line? -/
def isReasoningLine : TraceLine → Bool
  | TraceLine.reasoning _ _ => true
  | _ => false

/-- Is this trace line a text line (final response or reasoning)? -/
def isTextLine (l : TraceLine) : Bool := isFinalLine l || isReasoningLine l

/-- A small concrete stream (three events, commander → deploy_agent →
commander) used to exercise the loop on closed inputs. -/
def exampleStream : List Event :=
  [⟨"commander", none, false, [], [], [], false⟩,
   ⟨"deploy_agent", none, false, [], [], [], false⟩,
   ⟨"commander", none, false, [], [], [], false⟩]

/-- The trace lines emitted for the `n`-th event of a run's stream. -/
def eventLines (events : List Event) (n : Nat) : List TraceLine :=
  ((runLoop initState events).2).getD n []

/-- All trace lines emitted by the event loop of one run, in order. -/
def loopTrace (events : List Event) : List TraceLine :=
  ((runLoop initState events).2).flatten

/-! ## Theorems -/

/-- C4: for every string `s` and bound `m`, `_truncate` returns `s`
unchanged when `len(s) ≤ m`; otherwise it returns the first `m` characters
of `s` with the fixed suffix marker appended, so the output has length
`m + len(marker)` and its first `m` characters equal the first `m`
characters of `s`. -/
theorem truncate_spec (s : Str) (m : Nat) :
    (s.length ≤ m → _truncate s m = s) ∧
    (m < s.length →
      _truncate s m = s.take m ++ ellipsis ∧
      (_truncate s m).length = m + ellipsis.length ∧
      (_truncate s m).take m = s.take m) := by
  constructor
  · intro h
    simp [_truncate, h]
  · intro h
    have h' : ¬ s.length ≤ m := not_le.mpr h
    refine ⟨by simp [_truncate, h'], ?_, ?_⟩
    · simp only [_truncate, h', if_false, List.length_append, List.length_take,
        ellipsis, List.length_cons, List.length_nil]
      omega
    · simp only [_truncate, h', if_false]
      rw [List.take_append_of_le_length (by simp [List.length_take]; omega),
        List.take_take, min_self]

/-- Witness for C4: `_truncate` evaluated on a concrete over-long string and
a concrete short string. -/
theorem truncate_spec_witness :
    (2 < (['a', 'b', 'c', 'd'] : Str).length ∧
      (_truncate ['a', 'b', 'c', 'd'] 2 = (['a', 'b', 'c', 'd'] : Str).take 2 ++ ellipsis ∧
        (_truncate ['a', 'b', 'c', 'd'] 2).length = 2 + ellipsis.length ∧
        (_truncate ['a', 'b', 'c', 'd'] 2).take 2 = (['a', 'b', 'c', 'd'] : Str).take 2)) ∧
    ((['a', 'b'] : Str).length ≤ 5 ∧ _truncate ['a', 'b'] 5 = ['a', 'b']) :=
  ⟨⟨by decide, (truncate_spec ['a', 'b', 'c', 'd'] 2).2 (by decide)⟩,
   ⟨by decide, (truncate_spec ['a', 'b'] 5).1 (by decide)⟩⟩

/-- C1 counterexample: a failure after the `try/except` block — here the
correlation tool raising, which the spec's tool boundary explicitly allows —
propagates out of `analyze_deployments` as an exception instead of being
returned as the `{"error": message}` mapping. -/
theorem analyze_deployments_raises :
    @analyze_deployments Unit Unit (Except.ok [])
      (fun _ _ => Except.error "correlation failure") "checkout"
      ⟨some "2024-01-01T00:00:00Z", some "2024-01-01T01:00:00Z", some "INC-1"⟩
      none
    = Except.error "correlation failure" := rfl

/-- C1 (amended): only a failure of the deployment-fetch step is caught and
returned as the `{"error": message}` mapping; once the fetch succeeds, the
operation returns the findings summary when the reference-time lookup and
the correlation succeed, and a failure of either of those propagates past
the boundary as an exception. -/
theorem analyze_deployments_boundary {D C : Type}
    (fetch : Except String (List D))
    (correlate : List D → String → Except String C)
    (service : String) (tw : TimeWindow) (anomaly : Option String) :
    (∀ e, fetch = Except.error e →
      analyze_deployments fetch correlate service tw anomaly
        = Except.ok (AnalyzeResult.errorMap e)) ∧
    (∀ deps rt c, fetch = Except.ok deps →
      refTimeOf anomaly tw = Except.ok rt →
      correlate deps rt = Except.ok c →
      analyze_deployments fetch correlate service tw anomaly
        = Except.ok (AnalyzeResult.findings deps.length c service
            (tw.incident_id.getD "INC-UNKNOWN"))) ∧
    (∀ deps rt e, fetch = Except.ok deps →
      refTimeOf anomaly tw = Except.ok rt →
      correlate deps rt = Except.error e →
      analyze_deployments fetch correlate service tw anomaly
        = Except.error e) ∧
    (∀ deps e, fetch = Except.ok deps →
      refTimeOf anomaly tw = Except.error e →
      analyze_deployments fetch correlate service tw anomaly
        = Except.error e) := by
  refine ⟨?_, ?_, ?_, ?_⟩
  · intro e he
    simp [analyze_deployments, he]
  · intro deps rt c hf hr hc
    simp [analyze_deployments, hf, hr, hc]
  · intro deps rt e hf hr hc
    simp [analyze_deployments, hf, hr, hc]
  · intro deps e hf hr
    simp [analyze_deployments, hf, hr]

/-- Witness for C1 (amended): the fetch succeeds with one deployment, the
reference time comes from `time_window["end"]`, the correlation succeeds,
and the findings summary is returned. -/
theorem analyze_deployments_boundary_witness :
    @analyze_deployments Unit Unit (Except.ok [()]) (fun _ _ => Except.ok ())
      "checkout"
      ⟨some "2024-01-01T00:00:00Z", some "2024-01-01T01:00:00Z", some "INC-1"⟩
      none
    = Except.ok (AnalyzeResult.findings 1 () "checkout" "INC-1") :=
  (analyze_deployments_boundary (Except.ok [()]) (fun _ _ => Except.ok ())
      "checkout"
      ⟨some "2024-01-01T00:00:00Z", some "2024-01-01T01:00:00Z", some "INC-1"⟩
      none).2.1 [()] "2024-01-01T01:00:00Z" () rfl rfl rfl

/-- C2: if the dispatcher (`_send_findings_email`) raises, the Run Result
returned by `_run_commander` is identical to the one returned had dispatch
succeeded, and the entry point still reports the run as successful with
`{statusCode: 200, body: result}`. -/
theorem dispatch_failure_isolated (events : List Event)
    (state : List (String × StateVal)) (session_id : String) (elapsed : Int)
    (dispatch : RunResult → Except String Unit) (raw : EventDict) :
    (_run_commander events state session_id elapsed dispatch).1
      = (_run_commander events state session_id elapsed
          (fun _ => Except.ok ())).1
    ∧ lambda_handler
        (fun _ => Except.ok
          ((_run_commander events state session_id elapsed dispatch).1)) raw
      = ⟨200, LambdaBody.result
          ((_run_commander events state session_id elapsed dispatch).1)⟩ :=
  ⟨rfl, rfl⟩

/-- C7: `lambda_handler` always returns either
`{statusCode: 200, body: <the full Run Result>}` when the run succeeds, or
`{statusCode: 500, body: {"error": message}}` when it raises — never any
other shape. -/
theorem lambda_handler_shape (run : EventDict → Except String RunResult)
    (event : EventDict) :
    (∃ r, run (normalizeEvent event) = Except.ok r ∧
      lambda_handler run event = ⟨200, LambdaBody.result r⟩) ∨
    (∃ msg, run (normalizeEvent event) = Except.error msg ∧
      lambda_handler run event = ⟨500, LambdaBody.error msg⟩) := by
  cases h : run (normalizeEvent event) with
  | ok r => exact Or.inl ⟨r, rfl, by simp [lambda_handler, h]⟩
  | error e => exact Or.inr ⟨e, rfl, by simp [lambda_handler, h]⟩

/-- C10: the inbound event is wrapped as
`{"detail": event, "detail-type": "CloudWatch Alarm State Change"}` exactly
when it contains neither a `"detail-type"` nor a `"detail"` key; an event
containing either one of the two keys is passed through unchanged. -/
theorem normalize_event_spec (event : EventDict) :
    (hasKey event "detail-type" = false → hasKey event "detail" = false →
      normalizeEvent event =
        [("detail", JVal.dict event),
         ("detail-type", JVal.s "CloudWatch Alarm State Change")]) ∧
    ((hasKey event "detail-type" = true ∨ hasKey event "detail" = true) →
      normalizeEvent event = event) := by
  constructor
  · intro h1 h2
    simp [normalizeEvent, h1, h2]
  · intro h
    rcases h with h | h <;> simp [normalizeEvent, h]

/-- Witness for C10: an event with only a `"detail"` key passes through
unchanged; a bare alarm payload is wrapped. -/
theorem normalize_event_witness :
    normalizeEvent [("detail", JVal.s "x")] = [("detail", JVal.s "x")] ∧
    normalizeEvent [("alarmName", JVal.s "cpu-high")] =
      [("detail", JVal.dict [("alarmName", JVal.s "cpu-high")]),
       ("detail-type", JVal.s "CloudWatch Alarm State Change")] :=
  ⟨(normalize_event_spec [("detail", JVal.s "x")]).2 (Or.inr (by decide)),
   (normalize_event_spec [("alarmName", JVal.s "cpu-high")]).1
     (by decide) (by decide)⟩

/-- The loop's event counter adds exactly one per event consumed. -/
lemma runLoop_step_count (evs : List Event) : ∀ s : LoopState,
    (runLoop s evs).1.step_count = s.step_count + evs.length := by
  induction evs with
  | nil => intro s; simp [runLoop]
  | cons ev rest ih =>
    intro s
    simp only [runLoop, ih, stepEvent, List.length_cons]
    omega

/-- C8: the `event_count` reported in the Run Result equals the number of
events consumed from the stream. -/
theorem event_count_correct (events : List Event)
    (state : List (String × StateVal)) (session_id : String) (elapsed : Int)
    (dispatch : RunResult → Except String Unit) :
    (_run_commander events state session_id elapsed dispatch).1.event_count
      = events.length := by
  simp [_run_commander, runLoop_step_count, initState]

/-- One loop iteration appends the event's combined text to the final-text
buffer exactly when the event carries text and is a final response; no
separator is inserted between the buffer and the new text. -/
lemma stepEvent_final_text (s : LoopState) (ev : Event) :
    (stepEvent s ev).1.final_text =
      s.final_text ++
        (if !(text_parts ev).isEmpty && ev.is_final_response then
          joinSpace (text_parts ev)
        else []) := by
  simp only [stepEvent, textStep]
  by_cases h : (text_parts ev).isEmpty
  · simp [h]
  · by_cases hf : ev.is_final_response
    · simp [h, hf]
    · by_cases hc : ev.function_calls.isEmpty && ev.function_responses.isEmpty
      · simp [h, hf, hc]
      · simp [h, hf, hc]

/-- Unfolding `finalTexts` over the head event of a stream. -/
lemma finalTexts_cons (ev : Event) (rest : List Event) :
    finalTexts (ev :: rest) =
      (if !(text_parts ev).isEmpty && ev.is_final_response then
        [joinSpace (text_parts ev)] else []) ++ finalTexts rest := by
  simp only [finalTexts, List.filterMap_cons]
  by_cases hc : !(text_parts ev).isEmpty && ev.is_final_response
  · simp [hc]
  · simp [hc]

/-- Over a whole stream, the final-text buffer accumulates the concatenation
of the final-response texts. -/
lemma runLoop_final_text (evs : List Event) : ∀ s : LoopState,
    (runLoop s evs).1.final_text = s.final_text ++ (finalTexts evs).flatten := by
  induction evs with
  | nil => intro s; simp [runLoop, finalTexts]
  | cons ev rest ih =>
    intro s
    simp only [runLoop]
    rw [ih, stepEvent_final_text, finalTexts_cons, List.flatten_append]
    by_cases hc : !(text_parts ev).isEmpty && ev.is_final_response
    · simp [hc, List.append_assoc]
    · simp [hc]

/-- C3 counterexample: two final-response events carrying texts `"a"` and
`"b"` produce the response `"ab"`, not the space-joined `"a b"` the claim
requires. -/
theorem final_text_not_space_joined :
    (_run_commander
        [⟨"commander", none, false, [], [], [['a']], true⟩,
         ⟨"commander", none, false, [], [], [['b']], true⟩]
        [] "sess-1" 0 (fun _ => Except.ok ())).1.response = ['a', 'b'] ∧
    (_run_commander
        [⟨"commander", none, false, [], [], [['a']], true⟩,
         ⟨"commander", none, false, [], [], [['b']], true⟩]
        [] "sess-1" 0 (fun _ => Except.ok ())).1.response
      ≠ joinSpace [['a'], ['b']] := by
  constructor
  · rfl
  · decide

/-- C3 (amended): the Run Result's response text equals the direct
concatenation `t1 ++ t2 ++ ... ++ tk` of the final-response events' texts in
stream order, with no separator inserted between events (within one event,
its text fragments are space-joined to form `ti`). -/
theorem final_text_accumulation (events : List Event)
    (state : List (String × StateVal)) (session_id : String) (elapsed : Int)
    (dispatch : RunResult → Except String Unit) :
    (_run_commander events state session_id elapsed dispatch).1.response
      = (finalTexts events).flatten := by
  simp [_run_commander, runLoop_final_text, initState]

/-- A list contains no `p`-line when `p` rejects every member. -/
lemma countP_zero_of_all {α : Type} (p : α → Bool) (l : List α)
    (h : ∀ x ∈ l, p x = false) : l.countP p = 0 := by
  induction l with
  | nil => simp
  | cons a t ih =>
    simp only [List.countP_cons, h a (List.mem_cons_self a t),
      if_false, Nat.add_zero]
    exact ih (fun x hx => h x (List.mem_cons_of_mem a hx))

/-- Tool-call lines are never text/enter/exit lines, for any predicate that
rejects the `toolCall` constructor. -/
lemma countP_toolCallLines (ev : Event) (p : TraceLine → Bool)
    (h : ∀ n args, p (TraceLine.toolCall n args) = false) :
    (toolCallLines ev).countP p = 0 := by
  apply countP_zero_of_all
  intro x hx
  rcases List.mem_map.mp hx with ⟨fc, _, rfl⟩
  exact h _ _

/-- Same for tool-response lines. -/
lemma countP_toolResultLines (ev : Event) (p : TraceLine → Bool)
    (h : ∀ n r, p (TraceLine.toolResult n r) = false) :
    (toolResultLines ev).countP p = 0 := by
  apply countP_zero_of_all
  intro x hx
  rcases List.mem_map.mp hx with ⟨fr, _, rfl⟩
  exact h _ _

/-- Same for A2A-transfer lines. -/
lemma countP_transferLines (ev : Event) (p : TraceLine → Bool)
    (h : ∀ a b, p (TraceLine.a2aTransfer a b) = false) :
    (transferLines ev).countP p = 0 := by
  apply countP_zero_of_all
  intro x hx
  unfold transferLines at hx
  rcases hev : ev.transfer_to_agent with _ | target
  · rw [hev] at hx; simp at hx
  · rw [hev] at hx
    by_cases ht : target.isEmpty
    · simp [ht] at hx
    · simp [ht] at hx
      subst hx
      exact h _ _

/-- Same for escalation lines. -/
lemma countP_escalateLines (ev : Event) (p : TraceLine → Bool)
    (h : ∀ a, p (TraceLine.escalate a) = false) :
    (escalateLines ev).countP p = 0 := by
  apply countP_zero_of_all
  intro x hx
  unfold escalateLines at hx
  by_cases he : ev.escalate
  · simp [he] at hx
    subst hx
    exact h _
  · simp [he] at hx

/-- Same for transition lines. -/
lemma countP_transitionStep (cur : Option String) (author : String)
    (p : TraceLine → Bool)
    (hx : ∀ a, p (TraceLine.agentExit a) = false)
    (he : ∀ a, p (TraceLine.agentEnter a) = false) :
    (transitionStep cur author).2.countP p = 0 := by
  apply countP_zero_of_all
  intro x hmem
  unfold transitionStep at hmem
  by_cases hc : cur ≠ some author
  · rw [if_pos hc] at hmem
    rcases List.mem_append.mp hmem with hm | hm
    · rcases hcur : cur with _ | prev
      · rw [hcur] at hm; simp at hm
      · rw [hcur] at hm
        simp at hm
        subst hm
        exact hx _
    · simp at hm
      subst hm
      exact he _
  · simp [hc] at hmem

/-- Same for text lines, for any predicate rejecting `finalResponse` and
`reasoning`. -/
lemma countP_textStep (ft : Str) (ev : Event) (p : TraceLine → Bool)
    (hf : ∀ a t, p (TraceLine.finalResponse a t) = false)
    (hr : ∀ a t, p (TraceLine.reasoning a t) = false) :
    (textStep ft ev).1.countP p = 0 := by
  apply countP_zero_of_all
  intro x hmem
  unfold textStep at hmem
  by_cases h0 : (text_parts ev).isEmpty
  · simp [h0] at hmem
  · by_cases h1 : ev.is_final_response
    · simp [h0, h1] at hmem
      subst hmem
      exact hf _ _
    · by_cases h2 : ev.function_calls.isEmpty && ev.function_responses.isEmpty
      · simp [h0, h1, h2] at hmem
        subst hmem
        exact hr _ _
      · simp [h0, h1, h2] at hmem

/-- The per-event trace line count decomposes block by block. -/
lemma stepEvent_countP (s : LoopState) (ev : Event) (p : TraceLine → Bool) :
    (stepEvent s ev).2.countP p =
      (transitionStep s.current_agent ev.author).2.countP p +
      (toolCallLines ev).countP p + (toolResultLines ev).countP p +
      (transferLines ev).countP p + (escalateLines ev).countP p +
      (textStep s.final_text ev).1.countP p := by
  simp only [stepEvent, List.countP_append]

/-- The transition block emits exactly one enter line on an author change
and none otherwise. -/
lemma transitionStep_enterCount (cur : Option String) (author : String) :
    (transitionStep cur author).2.countP isEnterLine =
      if cur = some author then 0 else 1 := by
  unfold transitionStep
  by_cases hc : cur = some author
  · simp [hc]
  · rw [if_pos (by exact hc), if_neg hc]
    rcases cur with _ | prev <;>
      simp [List.countP_cons, List.countP_append, isEnterLine]

/-- The transition block emits exactly one exit line on an author change
from a previous agent, and none otherwise. -/
lemma transitionStep_exitCount (cur : Option String) (author : String) :
    (transitionStep cur author).2.countP isExitLine =
      match cur with
      | none => 0
      | some prev => if prev = author then 0 else 1 := by
  unfold transitionStep
  rcases cur with _ | prev
  · simp [isExitLine]
  · by_cases hc : prev = author
    · simp [hc]
    · rw [if_pos (show some prev ≠ some author by simp [hc])]
      simp [List.countP_cons, List.countP_append, isExitLine, hc]

/-- The text block emits exactly one final-response line when the event
carries text and is the final response. -/
lemma textStep_finalCount (ft : Str) (ev : Event) :
    (textStep ft ev).1.countP isFinalLine =
      if !(text_parts ev).isEmpty && ev.is_final_response then 1 else 0 := by
  unfold textStep
  by_cases h0 : (text_parts ev).isEmpty
  · simp [h0]
  · by_cases h1 : ev.is_final_response
    · simp [h0, h1, isFinalLine]
    · by_cases h2 : ev.function_calls.isEmpty && ev.function_responses.isEmpty
      · simp [h0, h1, h2, isFinalLine, isReasoningLine]
      · simp [h0, h1, h2]

/-- The text block emits exactly one reasoning line when the event carries
text, is not the final response, and has no tool calls or responses. -/
lemma textStep_reasoningCount (ft : Str) (ev : Event) :
    (textStep ft ev).1.countP isReasoningLine =
      if !(text_parts ev).isEmpty && !ev.is_final_response &&
          (ev.function_calls.isEmpty && ev.function_responses.isEmpty)
      then 1 else 0 := by
  unfold textStep
  by_cases h0 : (text_parts ev).isEmpty
  · simp [h0]
  · by_cases h1 : ev.is_final_response
    · simp [h0, h1, isReasoningLine, isFinalLine]
    · by_cases h2 : ev.function_calls.isEmpty && ev.function_responses.isEmpty
      · simp [h0, h1, h2, isReasoningLine]
      · simp [h0, h1, h2]

/-- Final-response line count of one event's whole line list. -/
lemma stepEvent_finalCount (s : LoopState) (ev : Event) :
    (stepEvent s ev).2.countP isFinalLine =
      if !(text_parts ev).isEmpty && ev.is_final_response then 1 else 0 := by
  rw [stepEvent_countP,
    countP_transitionStep _ _ _ (fun _ => rfl) (fun _ => rfl),
    countP_toolCallLines _ _ (fun _ _ => rfl),
    countP_toolResultLines _ _ (fun _ _ => rfl),
    countP_transferLines _ _ (fun _ _ => rfl),
    countP_escalateLines _ _ (fun _ => rfl),
    textStep_finalCount]
  omega

/-- Reasoning line count of one event's whole line list. -/
lemma stepEvent_reasoningCount (s : LoopState) (ev : Event) :
    (stepEvent s ev).2.countP isReasoningLine =
      if !(text_parts ev).isEmpty && !ev.is_final_response &&
          (ev.function_calls.isEmpty && ev.function_responses.isEmpty)
      then 1 else 0 := by
  rw [stepEvent_countP,
    countP_transitionStep _ _ _ (fun _ => rfl) (fun _ => rfl),
    countP_toolCallLines _ _ (fun _ _ => rfl),
    countP_toolResultLines _ _ (fun _ _ => rfl),
    countP_transferLines _ _ (fun _ _ => rfl),
    countP_escalateLines _ _ (fun _ => rfl),
    textStep_reasoningCount]
  omega

/-- A trace line is a text line exactly when it is a final-response line or
a reasoning line, and never both, so the counts add. -/
lemma countP_textLine_split (l : List TraceLine) :
    l.countP isTextLine = l.countP isFinalLine + l.countP isReasoningLine := by
  induction l with
  | nil => simp
  | cons a t ih =>
    cases a <;>
      simp [List.countP_cons, isTextLine, isFinalLine, isReasoningLine, ih] <;>
      omega

/-- C9: each event produces at most one text line; a final-response line is
produced exactly for a final-response event that carries text; a reasoning
line exactly for a non-final event that carries text and has no tool calls
and no tool responses; an event with tool calls/responses and no final
text — in particular one with no narrative text at all — produces no text
line. -/
theorem text_line_classification (s : LoopState) (ev : Event) :
    ((stepEvent s ev).2.countP isTextLine ≤ 1) ∧
    (text_parts ev = [] → (stepEvent s ev).2.countP isTextLine = 0) ∧
    (text_parts ev ≠ [] → ev.is_final_response = true →
      (stepEvent s ev).2.countP isFinalLine = 1 ∧
      (stepEvent s ev).2.countP isReasoningLine = 0) ∧
    (text_parts ev ≠ [] → ev.is_final_response = false →
      ev.function_calls = [] → ev.function_responses = [] →
      (stepEvent s ev).2.countP isReasoningLine = 1 ∧
      (stepEvent s ev).2.countP isFinalLine = 0) ∧
    (ev.is_final_response = false →
      (ev.function_calls ≠ [] ∨ ev.function_responses ≠ []) →
      (stepEvent s ev).2.countP isTextLine = 0) := by
  refine ⟨?_, ?_, ?_, ?_, ?_⟩
  · rw [countP_textLine_split, stepEvent_finalCount, stepEvent_reasoningCount]
    by_cases h1 : ev.is_final_response <;> simp [h1] <;> split <;> omega
  · intro h
    rw [countP_textLine_split, stepEvent_finalCount, stepEvent_reasoningCount]
    simp [h]
  · intro ht hf
    rw [stepEvent_finalCount, stepEvent_reasoningCount]
    simp [ht, hf]
  · intro ht hf hc hr
    rw [stepEvent_finalCount, stepEvent_reasoningCount]
    simp [ht, hf, hc, hr]
  · intro hf hcr
    rw [countP_textLine_split, stepEvent_finalCount, stepEvent_reasoningCount]
    rcases hcr with hc | hc <;> simp [hf, hc]

/-- Witness for C9: a concrete final-response event with text yields exactly
one final-response line and no reasoning line; a concrete tool-only event
yields no text line. -/
theorem text_line_classification_witness :
    ((stepEvent initState
        ⟨"commander", none, false, [], [], [['h', 'i']], true⟩).2.countP
          isTextLine ≤ 1) ∧
    ((stepEvent initState
        ⟨"commander", none, false, [], [], [['h', 'i']], true⟩).2.countP
          isFinalLine = 1 ∧
      (stepEvent initState
        ⟨"commander", none, false, [], [], [['h', 'i']], true⟩).2.countP
          isReasoningLine = 0) ∧
    ((stepEvent initState
        ⟨"deploy_agent", none, false, [⟨['f'], []⟩], [], [], false⟩).2.countP
          isTextLine = 0) :=
  ⟨(text_line_classification initState
      ⟨"commander", none, false, [], [], [['h', 'i']], true⟩).1,
   (text_line_classification initState
      ⟨"commander", none, false, [], [], [['h', 'i']], true⟩).2.2.1
      (by decide) rfl,
   (text_line_classification initState
      ⟨"deploy_agent", none, false, [⟨['f'], []⟩], [], [], false⟩).2.2.2.2
      rfl (Or.inl (by decide))⟩

/-- The transition block always leaves `current_agent` equal to the event's
author. -/
lemma transitionStep_fst (cur : Option String) (author : String) :
    (transitionStep cur author).1 = some author := by
  unfold transitionStep
  by_cases hc : cur ≠ some author
  · rw [if_pos hc]
  · rw [if_neg hc]
    exact not_not.mp hc

/-- After any iteration, `current_agent` is the author just processed. -/
lemma stepEvent_current (s : LoopState) (ev : Event) :
    (stepEvent s ev).1.current_agent = some ev.author := by
  simp [stepEvent, transitionStep_fst]

/-- Enter-line count of one event's whole line list. -/
lemma stepEvent_enterCount (s : LoopState) (ev : Event) :
    (stepEvent s ev).2.countP isEnterLine =
      if s.current_agent = some ev.author then 0 else 1 := by
  rw [stepEvent_countP, transitionStep_enterCount,
    countP_toolCallLines _ _ (fun _ _ => rfl),
    countP_toolResultLines _ _ (fun _ _ => rfl),
    countP_transferLines _ _ (fun _ _ => rfl),
    countP_escalateLines _ _ (fun _ => rfl),
    countP_textStep _ _ _ (fun _ _ => rfl) (fun _ _ => rfl)]
  omega

/-- Exit-line count of one event's whole line list. -/
lemma stepEvent_exitCount (s : LoopState) (ev : Event) :
    (stepEvent s ev).2.countP isExitLine =
      match s.current_agent with
      | none => 0
      | some prev => if prev = ev.author then 0 else 1 := by
  rw [stepEvent_countP, transitionStep_exitCount,
    countP_toolCallLines _ _ (fun _ _ => rfl),
    countP_toolResultLines _ _ (fun _ _ => rfl),
    countP_transferLines _ _ (fun _ _ => rfl),
    countP_escalateLines _ _ (fun _ => rfl),
    countP_textStep _ _ _ (fun _ _ => rfl) (fun _ _ => rfl)]
  omega

/-- Once an agent is active, every later transition emits an exit and an
enter together, so the two counts grow in lockstep. -/
lemma runLoop_counts_eq_of_some (evs : List Event) : ∀ (s : LoopState) (a : String),
    s.current_agent = some a →
    (runLoop s evs).2.flatten.countP isEnterLine
      = (runLoop s evs).2.flatten.countP isExitLine := by
  induction evs with
  | nil => intro s a _; simp [runLoop]
  | cons ev rest ih =>
    intro s a hs
    simp only [runLoop, List.flatten_cons, List.countP_append]
    rw [stepEvent_enterCount, stepEvent_exitCount, hs,
      ih (stepEvent s ev).1 ev.author (stepEvent_current s ev)]
    by_cases hae : a = ev.author
    · simp [hae]
    · simp [hae]

/-- A stream whose events all have the already-active author emits no
transition lines at all. -/
lemma runLoop_counts_zero_of_same (evs : List Event) : ∀ (s : LoopState) (a : String),
    s.current_agent = some a → (∀ ev ∈ evs, ev.author = a) →
    (runLoop s evs).2.flatten.countP isEnterLine = 0 ∧
    (runLoop s evs).2.flatten.countP isExitLine = 0 := by
  induction evs with
  | nil => intro s a _ _; simp [runLoop]
  | cons ev rest ih =>
    intro s a hs hall
    have hev : ev.author = a := hall ev (List.mem_cons_self ev rest)
    have hrest := ih (stepEvent s ev).1 a
      (by rw [stepEvent_current, hev])
      (fun e he => hall e (List.mem_cons_of_mem ev he))
    simp only [runLoop, List.flatten_cons, List.countP_append]
    rw [stepEvent_enterCount, stepEvent_exitCount, hs, hev]
    simp [hrest.1, hrest.2]

/-- From the second event on, the `n`-th event's lines contain exactly one
enter and one exit line when its author differs from the previous event's
author, and none of either otherwise. -/
lemma runLoop_succ_counts (evs : List Event) : ∀ (s : LoopState) (n : Nat),
    n + 1 < evs.length →
    (((runLoop s evs).2.getD (n+1) []).countP isEnterLine =
      if (evs.getD (n+1) default).author = (evs.getD n default).author
      then 0 else 1) ∧
    (((runLoop s evs).2.getD (n+1) []).countP isExitLine =
      if (evs.getD (n+1) default).author = (evs.getD n default).author
      then 0 else 1) := by
  induction evs with
  | nil => intro s n h; simp at h
  | cons ev rest ih =>
    intro s n h
    cases n with
    | zero =>
      cases rest with
      | nil => simp at h
      | cons ev1 rest' =>
        have hcur := stepEvent_current s ev
        simp only [runLoop, List.getD_cons_succ, List.getD_cons_zero]
        rw [stepEvent_enterCount, stepEvent_exitCount, hcur]
        constructor
        · by_cases hae : ev1.author = ev.author
          · simp [hae]
          · simp [hae, Ne.symm hae]
        · by_cases hae : ev1.author = ev.author
          · simp [hae]
          · simp [hae, Ne.symm hae]
    | succ m =>
      have hm : m + 1 < rest.length := by
        simpa [Nat.succ_lt_succ_iff] using h
      have := ih (stepEvent s ev).1 m hm
      simpa only [runLoop, List.getD_cons_succ] using this

/-- C5: in any non-empty stream, the first event always triggers an enter
line and never an exit line; event `n ≥ 1` triggers a transition (one enter
and one exit line) exactly when its author differs from event `n-1`'s
author; and overall the number of enter lines exceeds the number of exit
lines by exactly one. -/
theorem delegation_transition_tracking (events : List Event)
    (h : events ≠ []) :
    ((loopTrace events).countP isEnterLine
      = (loopTrace events).countP isExitLine + 1) ∧
    ((eventLines events 0).countP isEnterLine = 1 ∧
      (eventLines events 0).countP isExitLine = 0) ∧
    (∀ n, n + 1 < events.length →
      ((eventLines events (n+1)).countP isEnterLine =
        if (events.getD (n+1) default).author = (events.getD n default).author
        then 0 else 1) ∧
      ((eventLines events (n+1)).countP isExitLine =
        if (events.getD (n+1) default).author = (events.getD n default).author
        then 0 else 1)) ∧
    ((∀ ev ∈ events, ev.author = (events.getD 0 default).author) →
      (loopTrace events).countP isExitLine = 0) := by
  rcases List.exists_cons_of_ne_nil h with ⟨ev, rest, rfl⟩
  refine ⟨?_, ?_, ?_, ?_⟩
  · unfold loopTrace
    simp only [runLoop, List.flatten_cons, List.countP_append]
    rw [stepEvent_enterCount, stepEvent_exitCount,
      runLoop_counts_eq_of_some rest (stepEvent initState ev).1 ev.author
        (stepEvent_current initState ev)]
    simp [initState]
    omega
  · unfold eventLines
    simp only [runLoop, List.getD_cons_zero]
    rw [stepEvent_enterCount, stepEvent_exitCount]
    simp [initState]
  · intro n hn
    exact runLoop_succ_counts (ev :: rest) initState n hn
  · intro hall
    simp only [List.getD_cons_zero] at hall
    have hrest := runLoop_counts_zero_of_same rest
      (stepEvent initState ev).1 ev.author
      (by rw [stepEvent_current])
      (fun e he => hall e (List.mem_cons_of_mem ev he))
    unfold loopTrace
    simp only [runLoop, List.flatten_cons, List.countP_append]
    rw [stepEvent_exitCount, hrest.2]
    simp [initState]

/-- Witness for C5: the tracking theorem applied to a concrete three-event,
two-agent stream. -/
theorem delegation_transition_tracking_witness :
    exampleStream ≠ [] ∧
    (((loopTrace exampleStream).countP isEnterLine
        = (loopTrace exampleStream).countP isExitLine + 1) ∧
      ((eventLines exampleStream 0).countP isEnterLine = 1 ∧
        (eventLines exampleStream 0).countP isExitLine = 0) ∧
      (∀ n, n + 1 < exampleStream.length →
        ((eventLines exampleStream (n+1)).countP isEnterLine =
          if (exampleStream.getD (n+1) default).author
              = (exampleStream.getD n default).author
          then 0 else 1) ∧
        ((eventLines exampleStream (n+1)).countP isExitLine =
          if (exampleStream.getD (n+1) default).author
              = (exampleStream.getD n default).author
          then 0 else 1)) ∧
      ((∀ ev ∈ exampleStream, ev.author = (exampleStream.getD 0 default).author) →
        (loopTrace exampleStream).countP isExitLine = 0)) :=
  ⟨by decide, delegation_transition_tracking exampleStream (by decide)⟩

/-- Unfolding the drain loop over a head key bound to a truthy value. -/
lemma readFindings_cons_truthy (key : String) (keys : List String)
    (st : List (String × StateVal)) (v : StateVal)
    (hs : stateGet st key = some v) (ht : v.truthy = true) :
    readFindings (key :: keys) st =
      ((key, _truncate v.strRender 500) :: (readFindings keys st).1,
       TraceLine.stateSet key (_truncate v.strRender 200)
         :: (readFindings keys st).2) := by
  simp [readFindings, hs, ht]

/-- Unfolding the drain loop over a head key bound to a falsy value. -/
lemma readFindings_cons_falsy (key : String) (keys : List String)
    (st : List (String × StateVal)) (v : StateVal)
    (hs : stateGet st key = some v) (ht : v.truthy = false) :
    readFindings (key :: keys) st =
      ((readFindings keys st).1,
       TraceLine.stateNotSet key :: (readFindings keys st).2) := by
  simp [readFindings, hs, ht]

/-- Unfolding the drain loop over an absent head key. -/
lemma readFindings_cons_none (key : String) (keys : List String)
    (st : List (String × StateVal)) (hs : stateGet st key = none) :
    readFindings (key :: keys) st =
      ((readFindings keys st).1,
       TraceLine.stateNotSet key :: (readFindings keys st).2) := by
  simp [readFindings, hs]

/-- Every key of the findings bundle comes from the drained key list. -/
lemma readFindings_keys_mem (keys : List String) (st : List (String × StateVal)) :
    ∀ p ∈ (readFindings keys st).1, p.1 ∈ keys := by
  induction keys with
  | nil => intro p hp; simp [readFindings] at hp
  | cons key rest ih =>
    intro p hp
    rcases hs : stateGet st key with _ | v
    · rw [readFindings_cons_none key rest st hs] at hp
      exact List.mem_cons_of_mem key (ih p hp)
    · rcases ht : v.truthy with _ | _
      · rw [readFindings_cons_falsy key rest st v hs ht] at hp
        exact List.mem_cons_of_mem key (ih p hp)
      · rw [readFindings_cons_truthy key rest st v hs ht] at hp
        rcases List.mem_cons.mp hp with rfl | hp2
        · exact List.mem_cons_self key rest
        · exact List.mem_cons_of_mem key (ih p hp2)

/-- Looking up a key that is not drained yields nothing. -/
lemma readFindings_lookup_not_mem (keys : List String)
    (st : List (String × StateVal)) (k : String) (h : k ∉ keys) :
    dictGet (readFindings keys st).1 k = none := by
  rcases hf : (readFindings keys st).1.find? (fun p => p.1 == k) with _ | p
  · simp [dictGet, hf]
  · exfalso
    have hmem := List.find?_some hf
    have hp := List.mem_of_find?_eq_some hf
    have hin : p.1 ∈ keys := readFindings_keys_mem keys st p hp
    rw [show p.1 = k from by simpa using hmem] at hin
    exact h hin

/-- Looking up a drained key in the findings bundle: present with its
500-truncated rendering exactly when the session-state value is truthy. -/
lemma readFindings_lookup (keys : List String) (st : List (String × StateVal))
    (k : String) (hnd : keys.Nodup) (hmem : k ∈ keys) :
    dictGet (readFindings keys st).1 k =
      match stateGet st k with
      | some v => if v.truthy then some (_truncate v.strRender 500) else none
      | none => none := by
  induction keys with
  | nil => simp at hmem
  | cons key rest ih =>
    rcases List.mem_cons.mp hmem with rfl | hk
    · have hkr : k ∉ rest := (List.nodup_cons.mp hnd).1
      rcases hs : stateGet st k with _ | v
      · rw [readFindings_cons_none k rest st hs]
        exact readFindings_lookup_not_mem rest st k hkr
      · rcases ht : v.truthy with _ | _
        · rw [readFindings_cons_falsy k rest st v hs ht]
          simp only [ht, if_false]
          exact readFindings_lookup_not_mem rest st k hkr
        · rw [readFindings_cons_truthy k rest st v hs ht]
          simp [dictGet, ht]
    · have hne : key ≠ k := by
        intro he
        exact (List.nodup_cons.mp hnd).1 (he ▸ hk)
      have hrec := ih (List.nodup_cons.mp hnd).2 hk
      rcases hs : stateGet st key with _ | v
      · rw [readFindings_cons_none key rest st hs]
        exact hrec
      · rcases ht : v.truthy with _ | _
        · rw [readFindings_cons_falsy key rest st v hs ht]
          exact hrec
        · rw [readFindings_cons_truthy key rest st v hs ht]
          rw [dictGet, List.find?_cons_of_neg _ (by simpa using hne)]
          exact hrec

/-- Every drained key is traced: as set when its value is truthy, as
`"(not set)"` when absent or falsy. -/
lemma readFindings_trace (keys : List String) (st : List (String × StateVal))
    (k : String) (hmem : k ∈ keys) :
    (∀ v, stateGet st k = some v → v.truthy = true →
      TraceLine.stateSet k (_truncate v.strRender 200) ∈ (readFindings keys st).2) ∧
    ((stateGet st k = none ∨ (∃ v, stateGet st k = some v ∧ v.truthy = false)) →
      TraceLine.stateNotSet k ∈ (readFindings keys st).2) := by
  induction keys with
  | nil => simp at hmem
  | cons key rest ih =>
    rcases List.mem_cons.mp hmem with rfl | hk
    · constructor
      · intro v hv ht
        rw [readFindings_cons_truthy k rest st v hv ht]
        exact List.mem_cons_self _ _
      · intro hv
        rcases hv with hv | ⟨v, hv, ht⟩
        · rw [readFindings_cons_none k rest st hv]
          exact List.mem_cons_self _ _
        · rw [readFindings_cons_falsy k rest st v hv ht]
          exact List.mem_cons_self _ _
    · have hrec := ih hk
      constructor
      · intro v hv ht
        rcases hs : stateGet st key with _ | w
        · rw [readFindings_cons_none key rest st hs]
          exact List.mem_cons_of_mem _ (hrec.1 v hv ht)
        · rcases hw : w.truthy with _ | _
          · rw [readFindings_cons_falsy key rest st w hs hw]
            exact List.mem_cons_of_mem _ (hrec.1 v hv ht)
          · rw [readFindings_cons_truthy key rest st w hs hw]
            exact List.mem_cons_of_mem _ (hrec.1 v hv ht)
      · intro hv
        rcases hs : stateGet st key with _ | w
        · rw [readFindings_cons_none key rest st hs]
          exact List.mem_cons_of_mem _ (hrec.2 hv)
        · rcases hw : w.truthy with _ | _
          · rw [readFindings_cons_falsy key rest st w hs hw]
            exact List.mem_cons_of_mem _ (hrec.2 hv)
          · rw [readFindings_cons_truthy key rest st w hs hw]
            exact List.mem_cons_of_mem _ (hrec.2 hv)

/-- C6 counterexample: a well-known key that is present in session state but
bound to a falsy value (Python `""` renders as falsy) is dropped from
`sub_agent_findings` and traced as `"(not set)"`, although the claim
requires every present key to be stored. -/
theorem findings_present_falsy_key_dropped :
    stateGet [("logs_findings", ⟨false, []⟩)] "logs_findings"
        = some ⟨false, []⟩ ∧
    (readFindings findingKeys [("logs_findings", ⟨false, []⟩)]).1 = [] ∧
    TraceLine.stateNotSet "logs_findings"
      ∈ (readFindings findingKeys [("logs_findings", ⟨false, []⟩)]).2 := by
  refine ⟨rfl, rfl, ?_⟩
  decide

/-- C6 (amended): for each well-known finding key at state-read time — if
the key is present in session state with a truthy value, its string
rendering truncated to 500 characters is stored under that key in
`sub_agent_findings` and a set line is traced; if the key is absent, or
present with a falsy value, it is entirely omitted from
`sub_agent_findings` (never mapped to an empty/null placeholder) and a
`"(not set)"` marker is traced. -/
theorem findings_key_policy (st : List (String × StateVal)) (k : String)
    (hk : k ∈ findingKeys) :
    (∀ v, stateGet st k = some v → v.truthy = true →
      dictGet (readFindings findingKeys st).1 k
          = some (_truncate v.strRender 500) ∧
      TraceLine.stateSet k (_truncate v.strRender 200)
        ∈ (readFindings findingKeys st).2) ∧
    (stateGet st k = none →
      dictGet (readFindings findingKeys st).1 k = none ∧
      TraceLine.stateNotSet k ∈ (readFindings findingKeys st).2) ∧
    (∀ v, stateGet st k = some v → v.truthy = false →
      dictGet (readFindings findingKeys st).1 k = none ∧
      TraceLine.stateNotSet k ∈ (readFindings findingKeys st).2) := by
  have hnd : findingKeys.Nodup := by decide
  have hlook := readFindings_lookup findingKeys st k hnd hk
  have htr := readFindings_trace findingKeys st k hk
  refine ⟨?_, ?_, ?_⟩
  · intro v hv ht
    rw [hlook, hv]
    exact ⟨by simp [ht], htr.1 v hv ht⟩
  · intro hv
    rw [hlook, hv]
    exact ⟨rfl, htr.2 (Or.inl hv)⟩
  · intro v hv ht
    rw [hlook, hv]
    exact ⟨by simp [ht], htr.2 (Or.inr ⟨v, hv, ht⟩)⟩

/-- Witness for C6 (amended): on a concrete session state holding only a
truthy `deploy_findings` value, the bundle stores exactly that key and the
absent `logs_findings` key is omitted and traced as not set. -/
theorem findings_key_policy_witness :
    (dictGet (readFindings findingKeys
        [("deploy_findings", ⟨true, ['o', 'k']⟩)]).1 "deploy_findings"
      = some (_truncate ['o', 'k'] 500) ∧
      TraceLine.stateSet "deploy_findings" (_truncate ['o', 'k'] 200)
        ∈ (readFindings findingKeys
            [("deploy_findings", ⟨true, ['o', 'k']⟩)]).2) ∧
    (dictGet (readFindings findingKeys
        [("deploy_findings", ⟨true, ['o', 'k']⟩)]).1 "logs_findings" = none ∧
      TraceLine.stateNotSet "logs_findings"
        ∈ (readFindings findingKeys
            [("deploy_findings", ⟨true, ['o', 'k']⟩)]).2) :=
  ⟨(findings_key_policy [("deploy_findings", ⟨true, ['o', 'k']⟩)]
      "deploy_findings" (by decide)).1 ⟨true, ['o', 'k']⟩ rfl rfl,
   (findings_key_policy [("deploy_findings", ⟨true, ['o', 'k']⟩)]
      "logs_findings" (by decide)).2.1 rfl⟩

end AicCommander
